import Mathlib

/-!
Shallow embedding of the Scalegraph CLI navigation and form-state engine
(`src/cli/src/ui/app.rs` and `format_balance` from `src/cli/src/grpc/mod.rs`).

Pure Rust functions become Lean functions; the stateful `App` methods become
functions `App → App`; the asynchronous RPC collaborator is parametrised by an
`Env` record supplying each call's outcome (`none` models an RPC error, which
the event loop discards with `let _ = ...`).  Machine integers (`i64`) are
modelled as `Int`; `i64` overflow is irrelevant to the verified operations
except in string-to-integer parsing, where the `i64` range check is kept.
-/

namespace Scalegraph

/-! ### String helpers

Rust `String` is modelled by Lean `String` (a list of characters; the byte
versus char distinction is immaterial for the properties below). -/

/-- Rust `str::contains`: `needle` occurs as a contiguous substring of `hay`. -/
def strContains (hay needle : String) : Bool :=
  decide (needle.data <:+: hay.data)

/-- Rust `str::to_lowercase` (ASCII case folding, which is all the code relies on). -/
def strLower (s : String) : String :=
  ⟨s.data.map Char.toLower⟩

/-- Rust `String::pop`: remove the last character. -/
def strPop (s : String) : String :=
  ⟨s.data.dropLast⟩

/-- Rust `format!("{:02}", n)`: decimal rendering of `n` zero-padded to width 2. -/
def pad2 (n : Nat) : String :=
  if n < 10 then "0" ++ toString n else toString n

/-! ### `format_balance` (src/cli/src/grpc/mod.rs)

```rust
pub fn format_balance(balance: i64) -> String {
    let whole = balance / 100;
    let cents = (balance % 100).abs();
    if balance < 0 {
        format!("-{}.{:02}", whole.abs(), cents)
    } else {
        format!("{}.{:02}", whole, cents)
    }
}
```
Rust `/` and `%` on `i64` truncate toward zero (`Int.tdiv` / `Int.tmod`).
Printing a non-negative `i64` with `{}` renders its absolute value's decimal
digits, so `toString whole.natAbs` is used in both branches (in the `else`
branch `balance ≥ 0` forces `whole ≥ 0`). -/

def format_balance (balance : Int) : String :=
  let whole := balance.tdiv 100
  let cents := (balance.tmod 100).natAbs
  if balance < 0 then
    "-" ++ toString whole.natAbs ++ "." ++ pad2 cents
  else
    toString whole.natAbs ++ "." ++ pad2 cents

/-- The spec's reading of `format_balance`: sign, then `|cents| / 100`, a dot,
then `|cents| % 100` zero-padded to two digits. -/
def formatBalanceSpec (balance : Int) : String :=
  (if balance < 0 then "-" else "") ++
    toString (balance.natAbs / 100) ++ "." ++ pad2 (balance.natAbs % 100)

/-! ### Integer parsing (Rust `str::parse::<i64>()`)

Accepts an optional leading `+`/`-` followed by one or more ASCII digits, and
rejects values outside the `i64` range. -/

/-- Value of a non-empty all-digit character list; `none` otherwise. -/
def digitsVal (cs : List Char) : Option Nat :=
  if cs ≠ [] ∧ cs.all Char.isDigit then
    some (cs.foldl (fun n c => n * 10 + (c.toNat - 48)) 0)
  else
    none

/-- Rust `"...".parse::<i64>()` as an optional `Int`. -/
def parseI64 (s : String) : Option Int :=
  match s.data with
  | '+' :: rest => (digitsVal rest).bind fun n =>
      if n ≤ 9223372036854775807 then some (n : Int) else none
  | '-' :: rest => (digitsVal rest).bind fun n =>
      if n ≤ 9223372036854775808 then some (-(n : Int)) else none
  | cs => (digitsVal cs).bind fun n =>
      if n ≤ 9223372036854775807 then some (n : Int) else none

/-! ### Views and flat navigation (src/cli/src/ui/app.rs, `View` and
`App::next_view` / `prev_view` / `goto_view`) -/

inductive View where
  | Participants
  | ParticipantDetail
  | Transfer
  | History
  | Future
deriving DecidableEq, Repr

/-- Rust `View::all()`: the flat (tab) navigation order; `ParticipantDetail` is
deliberately excluded. -/
def View.all : List View :=
  [View.Participants, View.Transfer, View.History, View.Future]

/-- Rust `views.iter().position(|v| *v == current).unwrap_or(0)`. -/
def viewIndex (v : View) : Nat :=
  (View.all.findIdx? (fun x => x = v)).getD 0

/-- Rust `App::next_view`'s view computation: `views[(idx + 1) % views.len()]`. -/
def nextView (v : View) : View :=
  View.all.getD ((viewIndex v + 1) % View.all.length) View.Participants

/-- Rust `App::prev_view`'s view computation: `views[(idx + len - 1) % len]`. -/
def prevView (v : View) : View :=
  View.all.getD ((viewIndex v + View.all.length - 1) % View.all.length) View.Participants

/-- Rust `App::goto_view`'s view computation: jump to `views[index]` when in range,
otherwise leave the view unchanged. -/
def gotoView (index : Nat) (v : View) : View :=
  if index < View.all.length then View.all.getD index View.Participants else v

/-- A flat navigation operation (`next_view` or `prev_view`). -/
inductive NavOp where
  | next
  | prev
deriving DecidableEq, Repr

/-- Apply one flat navigation operation to a view. -/
def applyNav (op : NavOp) (v : View) : View :=
  match op with
  | NavOp.next => nextView v
  | NavOp.prev => prevView v

/-- Apply a sequence of flat navigation operations, first operation first. -/
def applyNavs (ops : List NavOp) (v : View) : View :=
  ops.foldl (fun w op => applyNav op w) v

/-! ### Display data model (src/cli/src/ui/app.rs)

`ParticipantInfo` carries further display-only fields in the source
(`services`, `created_at`, `metadata`, `about`, `contact`); none of the
verified operations reads them, so they are omitted. -/

structure ParticipantInfo where
  id : String
  name : String
  role : String
deriving DecidableEq, Repr

structure AccountInfo where
  id : String
  participant_id : String
  account_type : String
  balance : Int
deriving DecidableEq, Repr

structure ContractInfo where
  id : String
  contract_type : String
  description : String
  participants : List String
  next_execution : Option Int
deriving DecidableEq, Repr

structure ParticipantDetailData where
  info : ParticipantInfo
  accounts : List AccountInfo
  total_balance : Int
  contracts : List ContractInfo
deriving DecidableEq, Repr

structure TransferForm where
  from_account : String
  to_account : String
  amount : String
  reference : String
  selected_field : Nat
  error : Option String
  success : Option String
  suggestion_index : Option Nat
  show_suggestions : Bool
deriving DecidableEq, Repr

/-- Rust `TransferForm::default()`. -/
def TransferForm.default : TransferForm :=
  { from_account := "", to_account := "", amount := "", reference := ""
    selected_field := 0, error := none, success := none
    suggestion_index := none, show_suggestions := false }

structure FutureEvent where
  contract_id : String
  contract_type : String
  description : String
  execution_time : Int
deriving DecidableEq, Repr

structure BreadcrumbSegment where
  label : String
  view : View
  context : Option String
deriving DecidableEq, Repr

/-! ### Contract responses from the RPC collaborator (for `load_future_events`)

Each list element of `list_contracts` is a `ContractResponse` whose `contract`
field is an optional tagged union; `ConditionalPayment` and `RevenueShare`
variants carry no scheduled execution and are skipped by the loader. -/

structure InvoiceContract where
  id : String
  amount_cents : Int
  supplier_id : String
  buyer_id : String
  due_date : Int
  status : String
deriving DecidableEq, Repr

structure SubscriptionContract where
  id : String
  monthly_fee_cents : Int
  provider_id : String
  subscriber_id : String
  next_billing_date : Int
  status : String
deriving DecidableEq, Repr

structure GenericContract where
  id : String
  name : String
  description : String
  contract_type : Int
  next_execution_at : Int
  status : Int
deriving DecidableEq, Repr

structure ConditionalPaymentContract where
  id : String
  amount_cents : Int
  payer_id : String
  receiver_id : String
deriving DecidableEq, Repr

structure RevenueShareContract where
  id : String
  parties : List String
  transaction_type : String
deriving DecidableEq, Repr

inductive Contract where
  | invoice : InvoiceContract → Contract
  | subscription : SubscriptionContract → Contract
  | generic : GenericContract → Contract
  | conditionalPayment : ConditionalPaymentContract → Contract
  | revenueShare : RevenueShareContract → Contract
deriving DecidableEq, Repr

/-! ### `App::load_future_events` (pure part)

```rust
for contract_resp in contracts { match contract_resp.contract { ... } }
events.sort_by_key(|e| e.execution_time);
self.future_events = events.into_iter().take(5).collect();
```
The loop pushes at most one event per contract, in list order, which is
`filterMap`; `sort_by_key` is a stable ascending sort, modelled by Mathlib's
(stable) `insertionSort`. -/

/-- Rust `App::contract_type_to_string`. -/
def contract_type_to_string (contract_type : Int) : String :=
  if contract_type = 0 then "Generic"
  else if contract_type = 1 then "Loan"
  else if contract_type = 2 then "Invoice"
  else if contract_type = 3 then "Subscription"
  else if contract_type = 4 then "Conditional Payment"
  else if contract_type = 5 then "Revenue Share"
  else if contract_type = 6 then "Supplier Registration"
  else if contract_type = 7 then "Ecosystem Partner Membership"
  else "Unknown (" ++ toString contract_type ++ ")"

/-- The event (if any) a single contract response contributes, given the
current time `now` in milliseconds. -/
def contractEvent (oc : Option Contract) (now : Int) : Option FutureEvent :=
  match oc with
  | some (Contract.invoice inv) =>
      if inv.due_date > now ∧ inv.status = "pending" then
        some { contract_id := inv.id, contract_type := "Invoice"
               description := "Invoice payment: " ++ format_balance inv.amount_cents ++
                 " from " ++ inv.supplier_id ++ " to " ++ inv.buyer_id
               execution_time := inv.due_date }
      else none
  | some (Contract.subscription sub) =>
      if sub.next_billing_date > now ∧ sub.status = "active" then
        some { contract_id := sub.id, contract_type := "Subscription"
               description := "Subscription billing: " ++ format_balance sub.monthly_fee_cents ++
                 " from " ++ sub.provider_id ++ " to " ++ sub.subscriber_id
               execution_time := sub.next_billing_date }
      else none
  | some (Contract.generic gen) =>
      if gen.next_execution_at > now ∧ gen.status = 1 then
        some { contract_id := gen.id
               contract_type := "Generic (" ++ contract_type_to_string gen.contract_type ++ ")"
               description := gen.name ++ ": " ++ gen.description
               execution_time := gen.next_execution_at }
      else none
  | _ => none

/-- Ordering used by `events.sort_by_key(|e| e.execution_time)`. -/
def execLe (a b : FutureEvent) : Prop :=
  a.execution_time ≤ b.execution_time

instance : DecidableRel execLe :=
  fun a b => Int.decLe a.execution_time b.execution_time

instance : IsTotal FutureEvent execLe :=
  ⟨fun a b => Int.le_total a.execution_time b.execution_time⟩

instance : IsTrans FutureEvent execLe :=
  ⟨fun _ _ _ hab hbc => le_trans hab hbc⟩

/-- Pure core of `App::load_future_events`: eligible events, sorted ascending
by execution time, first five kept. -/
def loadFutureEventsPure (contracts : List (Option Contract)) (now : Int) :
    List FutureEvent :=
  ((contracts.filterMap (fun oc => contractEvent oc now)).insertionSort execLe).take 5

/-! ### Account suggestion engine (src/cli/src/ui/app.rs)

`App::get_account_suggestions` filters the account cache `accounts` against
the text of the active account field; `next_suggestion` / `prev_suggestion`
cycle through the (live) match list and overwrite the active field. -/

/-- The filter predicate of `App::get_account_suggestions`:
`filter.is_empty() || acc.id.to_lowercase().contains(&filter_lower)
|| acc.account_type.to_lowercase().contains(&filter_lower)`. -/
def accountMatches (filter : String) (acc : AccountInfo) : Bool :=
  decide (filter = "") ||
    strContains (strLower acc.id) (strLower filter) ||
    strContains (strLower acc.account_type) (strLower filter)

/-- The active account field's text, or `none` when `selected_field > 1`
(the `_ => return vec![]` arm). -/
def activeFilter (form : TransferForm) : Option String :=
  match form.selected_field with
  | 0 => some form.from_account
  | 1 => some form.to_account
  | _ => none

/-- Rust `App::get_account_suggestions`. -/
def get_account_suggestions (accounts : List AccountInfo) (form : TransferForm) :
    List AccountInfo :=
  match activeFilter form with
  | none => []
  | some filter => accounts.filter (accountMatches filter)

/-- Write the given account id into the active account field
(the `match selected_field { 0 => from, 1 => to, _ => {} }` tail of the
cycling functions). -/
def applySuggestion (form : TransferForm) (accId : String) : TransferForm :=
  match form.selected_field with
  | 0 => { form with from_account := accId }
  | 1 => { form with to_account := accId }
  | _ => form

/-- Rust `App::next_suggestion`, acting on the form given the current view and the
account cache. -/
def next_suggestion (view : View) (accounts : List AccountInfo)
    (form : TransferForm) : TransferForm :=
  if view ≠ View.Transfer ∨ form.selected_field > 1 then form
  else
    let suggestionIds := (get_account_suggestions accounts form).map (·.id)
    if suggestionIds = [] then form
    else
      let newIndex :=
        match form.suggestion_index with
        | none => 0
        | some i => (i + 1) % suggestionIds.length
      let form := { form with show_suggestions := true, suggestion_index := some newIndex }
      match suggestionIds.get? newIndex with
      | some accId => applySuggestion form accId
      | none => form

/-- Rust `App::prev_suggestion`. -/
def prev_suggestion (view : View) (accounts : List AccountInfo)
    (form : TransferForm) : TransferForm :=
  if view ≠ View.Transfer ∨ form.selected_field > 1 then form
  else
    let suggestionIds := (get_account_suggestions accounts form).map (·.id)
    if suggestionIds = [] then form
    else
      let newIndex :=
        match form.suggestion_index with
        | none => suggestionIds.length - 1
        | some i => if i = 0 then suggestionIds.length - 1 else i - 1
      let form := { form with show_suggestions := true, suggestion_index := some newIndex }
      match suggestionIds.get? newIndex with
      | some accId => applySuggestion form accId
      | none => form

/-- Rust `App::accept_suggestion`: clear suggestion state and advance the focused
field by one, modulo 4. -/
def accept_suggestion (form : TransferForm) : TransferForm :=
  { form with suggestion_index := none, show_suggestions := false
              selected_field := (form.selected_field + 1) % 4 }

/-! ### `App::execute_transfer`

The external `client.transfer(entries, reference)` call is parametrised by a
`TransferOutcome`; `ExecOut.sent` records the entries and reference passed to
that call (`none` when validation failed before any call was made). -/

inductive TransferOutcome where
  | ok (txId : String)
  | err (msg : String)
deriving DecidableEq, Repr

structure ExecOut where
  form : TransferForm
  history : List String
  sent : Option (List (String × Int) × String)
deriving DecidableEq, Repr

/-- The history line pushed on a successful transfer:
`format!("Transfer {} from {} to {} (ref: {}, tx: {})", ...)`. -/
def transferMsg (amount : Int) (fromAcc toAcc reference txId : String) : String :=
  "Transfer " ++ format_balance amount ++ " from " ++ fromAcc ++ " to " ++ toAcc ++
    " (ref: " ++ reference ++ ", tx: " ++ txId ++ ")"

/-- Rust `App::execute_transfer`, acting on the transfer form and the history list. -/
def execute_transfer (form0 : TransferForm) (history : List String)
    (remote : TransferOutcome) : ExecOut :=
  let form := { form0 with error := none, success := none }
  match parseI64 form.amount with
  | none =>
      { form := { form with error := some "Invalid amount" }
        history := history, sent := none }
  | some amount =>
      if form.from_account = "" ∨ form.to_account = "" then
        { form := { form with error := some "Both accounts required" }
          history := history, sent := none }
      else
        let entries := [(form.from_account, -amount), (form.to_account, amount)]
        match remote with
        | TransferOutcome.ok txId =>
            let msg := transferMsg amount form.from_account form.to_account
              form.reference txId
            { form := { TransferForm.default with success := some ("Success! TX: " ++ txId) }
              history := history ++ [msg]
              sent := some (entries, form.reference) }
        | TransferOutcome.err e =>
            { form := { form with error := some ("Failed: " ++ e) }
              history := history
              sent := some (entries, form.reference) }

/-! ### Transactions (for `App::load_transactions`) -/

structure TxEntry where
  account_id : String
  amount : Int
deriving DecidableEq, Repr

structure Tx where
  id : String
  txType : String
  entries : List TxEntry
  reference : String
deriving DecidableEq, Repr

/-- The display line `format!("[{}] {} | {} | {}", &tx.id[..8], ...)`; the
byte slice `&tx.id[..8]` is modelled as taking the first 8 characters
(identical for the ASCII ids the service produces). -/
def txLine (tx : Tx) : String :=
  "[" ++ (⟨tx.id.data.take 8⟩ : String) ++ "] " ++ tx.txType ++ " | " ++
    String.intercalate ", "
      (tx.entries.map (fun e => e.account_id ++ ": " ++ format_balance e.amount)) ++
    " | " ++ tx.reference

/-! ### The application state container (`App`) and the RPC collaborator

`App` mirrors the Rust struct; `ListState` is its selected index
(`Option usize`).  The gRPC client is replaced by an `Env` giving each remote
call's outcome; `none` models the call returning `Err`, which every caller in
the event loop discards (`let _ = ...` / `unwrap_or_default`). -/

structure App where
  current_view : View
  running : Bool
  breadcrumb : List BreadcrumbSegment
  participants : List ParticipantInfo
  participant_state : Option Nat
  participant_detail : Option ParticipantDetailData
  accounts : List AccountInfo
  account_state : Option Nat
  transfer_form : TransferForm
  history : List String
  future_events : List FutureEvent
  status_message : Option String
  loading : Bool
deriving DecidableEq, Repr

structure Env where
  participants : Option (List ParticipantInfo)
  accountsOf : String → Option (List AccountInfo)
  transactions : Option (List Tx)
  contracts : Option (List (Option Contract))
  now : Int
  detailOf : String → Option ParticipantDetailData
  transferResult : TransferOutcome

/-- Rust `App::update_breadcrumb`'s rebuilt sequence, as a pure function of the
current view and the loaded detail (the function clears the old breadcrumb
and rebuilds it from scratch). -/
def breadcrumbFor (v : View) (detail : Option ParticipantDetailData) :
    List BreadcrumbSegment :=
  match v with
  | View.Participants => [{ label := "Participants", view := View.Participants, context := none }]
  | View.ParticipantDetail =>
      { label := "Participants", view := View.Participants, context := none } ::
        (match detail with
         | some d => [{ label := d.info.name, view := View.ParticipantDetail
                        context := some d.info.id }]
         | none => [])
  | View.Transfer => [{ label := "Transfer", view := View.Transfer, context := none }]
  | View.History => [{ label := "History", view := View.History, context := none }]
  | View.Future => [{ label := "Future", view := View.Future, context := none }]

/-- Rust `App::update_breadcrumb`. -/
def App.update_breadcrumb (s : App) : App :=
  { s with breadcrumb := breadcrumbFor s.current_view s.participant_detail }

/-- Rust `App::navigate_to_breadcrumb`: set the view to the selected segment's
view, truncate to that prefix, then rebuild. -/
def App.navigate_to_breadcrumb (index : Nat) (s : App) : App :=
  if h : index < s.breadcrumb.length then
    let seg := s.breadcrumb.get ⟨index, h⟩
    App.update_breadcrumb
      { s with current_view := seg.view, breadcrumb := s.breadcrumb.take (index + 1) }
  else s

/-- Rust `App::next_view`. -/
def App.next_view (s : App) : App :=
  App.update_breadcrumb { s with current_view := nextView s.current_view }

/-- Rust `App::prev_view`. -/
def App.prev_view (s : App) : App :=
  App.update_breadcrumb { s with current_view := prevView s.current_view }

/-- Rust `App::goto_view`. -/
def App.goto_view (index : Nat) (s : App) : App :=
  if index < View.all.length then
    App.update_breadcrumb
      { s with current_view := View.all.getD index View.Participants }
  else s

/-- Rust `App::select_next`. -/
def App.select_next (s : App) : App :=
  match s.current_view with
  | View.Participants =>
      let i := s.participant_state.getD 0
      if i < s.participants.length - 1 then
        { s with participant_state := some (i + 1) }
      else s
  | View.Transfer =>
      { s with transfer_form :=
          { s.transfer_form with selected_field := (s.transfer_form.selected_field + 1) % 4 } }
  | _ => s

/-- Rust `App::select_prev`. -/
def App.select_prev (s : App) : App :=
  match s.current_view with
  | View.Participants =>
      let i := s.participant_state.getD 0
      if i > 0 then { s with participant_state := some (i - 1) } else s
  | View.Transfer =>
      { s with transfer_form :=
          { s.transfer_form with selected_field := (s.transfer_form.selected_field + 3) % 4 } }
  | _ => s

/-- Rust `App::handle_char`. -/
def App.handle_char (c : Char) (s : App) : App :=
  if s.current_view = View.Transfer then
    let f := s.transfer_form
    match f.selected_field with
    | 0 => { s with transfer_form := { f with from_account := f.from_account.push c
                                              suggestion_index := none
                                              show_suggestions := true } }
    | 1 => { s with transfer_form := { f with to_account := f.to_account.push c
                                              suggestion_index := none
                                              show_suggestions := true } }
    | 2 => { s with transfer_form := { f with amount := f.amount.push c
                                              suggestion_index := none
                                              show_suggestions := false } }
    | 3 => { s with transfer_form := { f with reference := f.reference.push c
                                              suggestion_index := none
                                              show_suggestions := false } }
    | _ => s
  else s

/-- Rust `App::handle_backspace`. -/
def App.handle_backspace (s : App) : App :=
  if s.current_view = View.Transfer then
    let f := s.transfer_form
    match f.selected_field with
    | 0 => { s with transfer_form := { f with from_account := strPop f.from_account
                                              suggestion_index := none
                                              show_suggestions := true } }
    | 1 => { s with transfer_form := { f with to_account := strPop f.to_account
                                              suggestion_index := none
                                              show_suggestions := true } }
    | 2 => { s with transfer_form := { f with amount := strPop f.amount
                                              suggestion_index := none
                                              show_suggestions := false } }
    | 3 => { s with transfer_form := { f with reference := strPop f.reference
                                              suggestion_index := none
                                              show_suggestions := false } }
    | _ => s
  else s

/-- Rust `App::load_participants`; on an RPC error the `?` operator returns early,
leaving the list unchanged (and the `loading` flag set). -/
def App.load_participants (env : Env) (s : App) : App :=
  let s := { s with loading := true }
  match env.participants with
  | some ps => { s with participants := ps, loading := false }
  | none => s

/-- Rust `App::load_accounts`: clears the cache, then appends each participant's
accounts, ignoring per-participant errors; never fails as a whole. -/
def App.load_accounts (env : Env) (s : App) : App :=
  let s := { s with loading := true, accounts := [] }
  { s with accounts := s.participants.flatMap (fun p => (env.accountsOf p.id).getD [])
           loading := false }

/-- Rust `App::load_transactions`: clears the history, then formats each returned
transaction; an RPC error leaves the history cleared. -/
def App.load_transactions (env : Env) (s : App) : App :=
  let s := { s with loading := true, history := [] }
  match env.transactions with
  | some txs => { s with history := txs.map txLine, loading := false }
  | none => { s with loading := false }

/-- Rust `App::load_future_events`: an RPC error is `unwrap_or_default`ed to an
empty contract list. -/
def App.load_future_events (env : Env) (s : App) : App :=
  let s := { s with loading := true, future_events := [] }
  { s with future_events := loadFutureEventsPure (env.contracts.getD []) env.now
           loading := false }

/-- Rust `App::load_participant_detail`.  `Env.detailOf` yields the fully mapped
`ParticipantDetail` (the per-variant contract description mapping is RPC-data
plumbing none of the claims touch); `none` models a failing
`get_participant`/`get_participant_accounts` call, whose `?` returns early
with the previous detail intact. -/
def App.load_participant_detail (env : Env) (pid : String) (s : App) : App :=
  let s := { s with loading := true }
  match env.detailOf pid with
  | some d => { s with participant_detail := some d, loading := false }
  | none => s

/-- Rust `App::execute_transfer`, lifted to the application state. -/
def App.execute_transfer (env : Env) (s : App) : App :=
  let r := Scalegraph.execute_transfer s.transfer_form s.history env.transferResult
  { s with transfer_form := r.form, history := r.history }

/-! ### The event dispatch loop (`run_app`)

One loop iteration's reaction to a key press becomes `handleKey`.  Key codes
that share a Rust match arm (`Down | Char('j')`) share a branch; `Char`
patterns with failing guards fall through to the generic text-input arm,
exactly as in the source's top-to-bottom match. -/

inductive Key where
  | ctrlC
  | tab
  | backTab
  | right
  | left
  | down
  | up
  | home
  | endKey
  | enter
  | backspace
  | esc
  | char (c : Char)
  | other
deriving DecidableEq, Repr

/-- The post-flat-navigation reload policy shared by `Tab`/`BackTab`/arrow
branches: entering `Transfer` from a non-Transfer view reloads accounts;
entering `Future` reloads future events. -/
def reloadOnEnter (env : Env) (wasTransfer : Bool) (s : App) : App :=
  if wasTransfer = false ∧ s.current_view = View.Transfer then
    App.load_accounts env s
  else if s.current_view = View.Future then
    App.load_future_events env s
  else s

/-- The `Tab` branch: suggestion cycling in an account field of the transfer
form, flat navigation (plus reload policy) otherwise. -/
def tabAction (env : Env) (s : App) : App :=
  if s.current_view = View.Transfer ∧ s.transfer_form.selected_field ≤ 1 then
    { s with transfer_form := next_suggestion s.current_view s.accounts s.transfer_form }
  else
    reloadOnEnter env (decide (s.current_view = View.Transfer)) (App.next_view s)

/-- The `BackTab` branch. -/
def backTabAction (env : Env) (s : App) : App :=
  if s.current_view = View.Transfer ∧ s.transfer_form.selected_field ≤ 1 then
    { s with transfer_form := prev_suggestion s.current_view s.accounts s.transfer_form }
  else
    reloadOnEnter env (decide (s.current_view = View.Transfer)) (App.prev_view s)

/-- The `Right` arrow branch: always flat navigation. -/
def rightAction (env : Env) (s : App) : App :=
  reloadOnEnter env (decide (s.current_view = View.Transfer)) (App.next_view s)

/-- The `Left` arrow branch. -/
def leftAction (env : Env) (s : App) : App :=
  reloadOnEnter env (decide (s.current_view = View.Transfer)) (App.prev_view s)

/-- The `Enter` branch: accept a suggestion or submit in the transfer form;
drill down into participant detail from the participants list. -/
def enterAction (env : Env) (s : App) : App :=
  if s.current_view = View.Transfer then
    if s.transfer_form.selected_field ≤ 1 then
      { s with transfer_form := accept_suggestion s.transfer_form }
    else
      App.execute_transfer env s
  else if s.current_view = View.Participants then
    match s.participant_state with
    | none => s
    | some idx =>
        match (s.participants.get? idx).map (fun p => p.id) with
        | none => s
        | some pid =>
            App.update_breadcrumb
              { App.load_participant_detail env pid s with
                  current_view := View.ParticipantDetail }
  else s

/-- The `Char('r')` refresh branch (guard: not in the Transfer view). -/
def refreshAction (env : Env) (s : App) : App :=
  let s := App.load_future_events env
    (App.load_transactions env (App.load_accounts env (App.load_participants env s)))
  if s.current_view = View.ParticipantDetail then
    match s.participant_detail.map (fun d => d.info.id) with
    | some pid => App.load_participant_detail env pid s
    | none => s
  else s

/-- The `Char('b')` back-navigation branch (guard: breadcrumb depth > 1). -/
def backAction (env : Env) (s : App) : App :=
  let s := App.navigate_to_breadcrumb (s.breadcrumb.length - 2) s
  if s.current_view = View.ParticipantDetail then
    match s.participant_detail.map (fun d => d.info.id) with
    | some pid => App.load_participant_detail env pid s
    | none => s
  else if s.current_view = View.Participants then
    App.load_participants env s
  else if s.current_view = View.Future then
    App.load_future_events env s
  else s

/-- Dispatch of a `Char(c)` key: the guarded character arms of the source
match, with failed guards falling through to `handle_char`. -/
def charAction (env : Env) (c : Char) (s : App) : App :=
  if c = 'q' then { s with running := false }
  else if c = '1' ∧ s.current_view ≠ View.Transfer then App.goto_view 0 s
  else if c = '2' ∧ s.current_view ≠ View.Transfer then App.goto_view 1 s
  else if c = '3' ∧ s.current_view ≠ View.Transfer then
    App.load_accounts env (App.goto_view 2 s)
  else if c = '4' ∧ s.current_view ≠ View.Transfer then
    App.load_future_events env (App.goto_view 3 s)
  else if c = 'j' then App.select_next s
  else if c = 'k' then App.select_prev s
  else if c = 'r' ∧ s.current_view ≠ View.Transfer then refreshAction env s
  else if c = 'b' ∧ s.breadcrumb.length > 1 then backAction env s
  else App.handle_char c s

/-- One key-press reaction of `run_app`'s match. -/
def handleKey (env : Env) (k : Key) (s : App) : App :=
  match k with
  | Key.ctrlC => { s with running := false }
  | Key.esc =>
      if s.current_view = View.Transfer then
        { s with transfer_form := TransferForm.default }
      else { s with running := false }
  | Key.tab => tabAction env s
  | Key.backTab => backTabAction env s
  | Key.right => rightAction env s
  | Key.left => leftAction env s
  | Key.down => App.select_next s
  | Key.up => App.select_prev s
  | Key.home =>
      if s.current_view = View.Participants then
        { s with participant_state := some 0 }
      else s
  | Key.endKey =>
      if s.current_view = View.Participants ∧ s.participants.length > 0 then
        { s with participant_state := some (s.participants.length - 1) }
      else s
  | Key.enter => enterAction env s
  | Key.backspace => App.handle_backspace s
  | Key.char c => charAction env c s
  | Key.other => s

/-- Rust `App::new`: initial state (both list selections start at index 0,
breadcrumb rebuilt once). -/
def App.init : App :=
  App.update_breadcrumb
    { current_view := View.Participants, running := true, breadcrumb := []
      participants := [], participant_state := some 0, participant_detail := none
      accounts := [], account_state := some 0
      transfer_form := TransferForm.default
      history := [], future_events := [], status_message := none, loading := false }

/-- Rust `run_app`'s initial best-effort loads, in source order. -/
def initLoaded (env : Env) : App :=
  App.load_future_events env
    (App.load_transactions env (App.load_accounts env (App.load_participants env App.init)))

/-- States the event dispatch loop can reach: the freshly loaded initial state,
closed under one key-press step (each step may observe fresh RPC data, hence
its own `Env`). -/
inductive Reachable : App → Prop where
  | init (env : Env) : Reachable (initLoaded env)
  | step (env : Env) (k : Key) {s : App} : Reachable s → Reachable (handleKey env k s)

/-! ### Helper lemmas -/

theorem empty_append_str (s : String) : "" ++ s = s := by
  cases s with
  | mk data => rfl

theorem format_balance_eq_spec (b : Int) : format_balance b = formatBalanceSpec b := by
  cases b with
  | ofNat n =>
      have h : ¬ ((Int.ofNat n) < 0) := Int.not_lt.mpr (Int.ofNat_zero_le n)
      simp only [format_balance, formatBalanceSpec, if_neg h, empty_append_str]
      rfl
  | negSucc n =>
      have h : Int.negSucc n < 0 := Int.negSucc_lt_zero n
      have e1 : (Int.negSucc n).tdiv 100 = -Int.ofNat ((n + 1) / 100) := rfl
      have e2 : (Int.negSucc n).tmod 100 = -Int.ofNat ((n + 1) % 100) := rfl
      simp only [format_balance, formatBalanceSpec, if_pos h, e1, e2, Int.natAbs_neg]
      rfl

theorem small_negative_render (b : Int) (h1 : -99 ≤ b) (h2 : b ≤ -1) :
    format_balance b = "-0." ++ pad2 b.natAbs := by
  cases b with
  | ofNat n => exact absurd (le_trans (Int.ofNat_zero_le n) h2) (by decide)
  | negSucc n =>
      rw [Int.negSucc_eq] at h1
      have h : Int.negSucc n < 0 := Int.negSucc_lt_zero n
      have e1 : (Int.negSucc n).tdiv 100 = -Int.ofNat ((n + 1) / 100) := rfl
      have e2 : (Int.negSucc n).tmod 100 = -Int.ofNat ((n + 1) % 100) := rfl
      have hd : (n + 1) / 100 = 0 := Nat.div_eq_of_lt (by omega)
      have hm : (n + 1) % 100 = n + 1 := Nat.mod_eq_of_lt (by omega)
      simp only [format_balance, if_pos h, e1, e2, Int.natAbs_neg]
      rw [show (Int.ofNat ((n + 1) / 100)).natAbs = (n + 1) / 100 from rfl,
        show (Int.ofNat ((n + 1) % 100)).natAbs = (n + 1) % 100 from rfl, hd, hm]
      rfl


theorem applyNav_mem (op : NavOp) (v : View) : applyNav op v ∈ View.all := by
  cases op <;> cases v <;> decide

theorem applyNavs_mem_of_mem (ops : List NavOp) (v : View) (hv : v ∈ View.all) :
    applyNavs ops v ∈ View.all := by
  induction ops generalizing v with
  | nil => exact hv
  | cons o os ih => exact ih (applyNav o v) (applyNav_mem o v)

theorem viewIndex_nextView (v : View) (hv : v ∈ View.all) :
    viewIndex (nextView v) = (viewIndex v + 1) % View.all.length := by
  fin_cases hv <;> decide

theorem nextView_iterate (k : Nat) (v : View) (hv : v ∈ View.all) :
    nextView^[k] v = View.all.getD ((viewIndex v + k) % View.all.length) View.Participants := by
  induction k generalizing v with
  | zero =>
      fin_cases hv <;> decide
  | succ k ih =>
      rw [Function.iterate_succ_apply]
      have hnv : nextView v ∈ View.all := by
        have := applyNav_mem NavOp.next v
        exact this
      rw [ih (nextView v) hnv, viewIndex_nextView v hv, Nat.mod_add_mod]
      congr 2
      omega



/-- View-level shape of the breadcrumb in every reachable state. -/
def BInv (s : App) : Prop :=
  if s.current_view = View.ParticipantDetail then
    s.breadcrumb.map (fun seg => seg.view) = [View.Participants] ∨
      s.breadcrumb.map (fun seg => seg.view) = [View.Participants, View.ParticipantDetail]
  else
    s.breadcrumb.map (fun seg => seg.view) = [s.current_view]

theorem binv_of_eq {s s' : App} (hv : s'.current_view = s.current_view)
    (hb : s'.breadcrumb = s.breadcrumb) (h : BInv s) : BInv s' := by
  unfold BInv at h ⊢
  rw [hv, hb]
  exact h

theorem binv_update_breadcrumb (s : App) : BInv (App.update_breadcrumb s) := by
  unfold BInv App.update_breadcrumb breadcrumbFor
  cases s.current_view <;> cases s.participant_detail <;> simp

@[simp] theorem load_participants_current_view (env : Env) (s : App) :
    (App.load_participants env s).current_view = s.current_view := by
  unfold App.load_participants; cases env.participants <;> rfl

@[simp] theorem load_participants_breadcrumb (env : Env) (s : App) :
    (App.load_participants env s).breadcrumb = s.breadcrumb := by
  unfold App.load_participants; cases env.participants <;> rfl

@[simp] theorem load_accounts_current_view (env : Env) (s : App) :
    (App.load_accounts env s).current_view = s.current_view := rfl

@[simp] theorem load_accounts_breadcrumb (env : Env) (s : App) :
    (App.load_accounts env s).breadcrumb = s.breadcrumb := rfl

@[simp] theorem load_transactions_current_view (env : Env) (s : App) :
    (App.load_transactions env s).current_view = s.current_view := by
  unfold App.load_transactions; cases env.transactions <;> rfl

@[simp] theorem load_transactions_breadcrumb (env : Env) (s : App) :
    (App.load_transactions env s).breadcrumb = s.breadcrumb := by
  unfold App.load_transactions; cases env.transactions <;> rfl

@[simp] theorem load_future_events_current_view (env : Env) (s : App) :
    (App.load_future_events env s).current_view = s.current_view := rfl

@[simp] theorem load_future_events_breadcrumb (env : Env) (s : App) :
    (App.load_future_events env s).breadcrumb = s.breadcrumb := rfl

@[simp] theorem load_participant_detail_current_view (env : Env) (pid : String) (s : App) :
    (App.load_participant_detail env pid s).current_view = s.current_view := by
  unfold App.load_participant_detail; cases env.detailOf pid <;> rfl

@[simp] theorem load_participant_detail_breadcrumb (env : Env) (pid : String) (s : App) :
    (App.load_participant_detail env pid s).breadcrumb = s.breadcrumb := by
  unfold App.load_participant_detail; cases env.detailOf pid <;> rfl

@[simp] theorem execute_transfer_app_current_view (env : Env) (s : App) :
    (App.execute_transfer env s).current_view = s.current_view := rfl

@[simp] theorem execute_transfer_app_breadcrumb (env : Env) (s : App) :
    (App.execute_transfer env s).breadcrumb = s.breadcrumb := rfl

@[simp] theorem select_next_current_view (s : App) :
    (App.select_next s).current_view = s.current_view := by
  unfold App.select_next
  split <;> first | rfl | (dsimp only; split <;> rfl)

@[simp] theorem select_next_breadcrumb (s : App) :
    (App.select_next s).breadcrumb = s.breadcrumb := by
  unfold App.select_next
  split <;> first | rfl | (dsimp only; split <;> rfl)

@[simp] theorem select_prev_current_view (s : App) :
    (App.select_prev s).current_view = s.current_view := by
  unfold App.select_prev
  split <;> first | rfl | (dsimp only; split <;> rfl)

@[simp] theorem select_prev_breadcrumb (s : App) :
    (App.select_prev s).breadcrumb = s.breadcrumb := by
  unfold App.select_prev
  split <;> first | rfl | (dsimp only; split <;> rfl)

@[simp] theorem handle_char_current_view (c : Char) (s : App) :
    (App.handle_char c s).current_view = s.current_view := by
  unfold App.handle_char
  split
  · dsimp only
    rcases s.transfer_form.selected_field with _ | _ | _ | _ | _ <;> rfl
  · rfl

@[simp] theorem handle_char_breadcrumb (c : Char) (s : App) :
    (App.handle_char c s).breadcrumb = s.breadcrumb := by
  unfold App.handle_char
  split
  · dsimp only
    rcases s.transfer_form.selected_field with _ | _ | _ | _ | _ <;> rfl
  · rfl

@[simp] theorem handle_backspace_current_view (s : App) :
    (App.handle_backspace s).current_view = s.current_view := by
  unfold App.handle_backspace
  split
  · dsimp only
    rcases s.transfer_form.selected_field with _ | _ | _ | _ | _ <;> rfl
  · rfl

@[simp] theorem handle_backspace_breadcrumb (s : App) :
    (App.handle_backspace s).breadcrumb = s.breadcrumb := by
  unfold App.handle_backspace
  split
  · dsimp only
    rcases s.transfer_form.selected_field with _ | _ | _ | _ | _ <;> rfl
  · rfl


theorem binv_next_view (s : App) : BInv (App.next_view s) :=
  binv_update_breadcrumb _

theorem binv_prev_view (s : App) : BInv (App.prev_view s) :=
  binv_update_breadcrumb _

theorem binv_reloadOnEnter (env : Env) (w : Bool) {s : App} (h : BInv s) :
    BInv (reloadOnEnter env w s) := by
  unfold reloadOnEnter
  split
  · exact binv_of_eq (by simp) (by simp) h
  · split
    · exact binv_of_eq (by simp) (by simp) h
    · exact h

theorem binv_goto_view (i : Nat) {s : App} (h : BInv s) : BInv (App.goto_view i s) := by
  unfold App.goto_view
  split
  · exact binv_update_breadcrumb _
  · exact h

theorem binv_navigate_to_breadcrumb (i : Nat) {s : App} (h : BInv s) :
    BInv (App.navigate_to_breadcrumb i s) := by
  unfold App.navigate_to_breadcrumb
  split
  · exact binv_update_breadcrumb _
  · exact h

theorem binv_refreshAction (env : Env) {s : App} (h : BInv s) :
    BInv (refreshAction env s) := by
  dsimp only [refreshAction]
  split
  · split
    · exact binv_of_eq (by simp) (by simp) h
    · exact binv_of_eq (by simp) (by simp) h
  · exact binv_of_eq (by simp) (by simp) h

theorem binv_backAction (env : Env) {s : App} (h : BInv s) :
    BInv (backAction env s) := by
  have h1 := binv_navigate_to_breadcrumb (s.breadcrumb.length - 2) h
  dsimp only [backAction]
  split
  · split
    · exact binv_of_eq (by simp) (by simp) h1
    · exact h1
  · split
    · exact binv_of_eq (by simp) (by simp) h1
    · split
      · exact binv_of_eq (by simp) (by simp) h1
      · exact h1

theorem binv_enterAction (env : Env) {s : App} (h : BInv s) :
    BInv (enterAction env s) := by
  dsimp only [enterAction]
  split
  · split
    · exact binv_of_eq rfl rfl h
    · exact binv_of_eq (by simp) (by simp) h
  · split
    · split
      · exact h
      · split
        · exact h
        · exact binv_update_breadcrumb _
    · exact h

theorem binv_charAction (env : Env) (c : Char) {s : App} (h : BInv s) :
    BInv (charAction env c s) := by
  dsimp only [charAction]
  split
  · exact binv_of_eq rfl rfl h
  · split
    · exact binv_goto_view 0 h
    · split
      · exact binv_goto_view 1 h
      · split
        · exact binv_of_eq (by simp) (by simp) (binv_goto_view 2 h)
        · split
          · exact binv_of_eq (by simp) (by simp) (binv_goto_view 3 h)
          · split
            · exact binv_of_eq (by simp) (by simp) h
            · split
              · exact binv_of_eq (by simp) (by simp) h
              · split
                · exact binv_refreshAction env h
                · split
                  · exact binv_backAction env h
                  · exact binv_of_eq (by simp) (by simp) h

theorem binv_handleKey (env : Env) (k : Key) {s : App} (h : BInv s) :
    BInv (handleKey env k s) := by
  cases k with
  | ctrlC => exact binv_of_eq rfl rfl h
  | esc =>
      dsimp only [handleKey]
      split
      · exact binv_of_eq rfl rfl h
      · exact binv_of_eq rfl rfl h
  | tab =>
      dsimp only [handleKey, tabAction]
      split
      · exact binv_of_eq rfl rfl h
      · exact binv_reloadOnEnter env _ (binv_next_view s)
  | backTab =>
      dsimp only [handleKey, backTabAction]
      split
      · exact binv_of_eq rfl rfl h
      · exact binv_reloadOnEnter env _ (binv_prev_view s)
  | right =>
      dsimp only [handleKey, rightAction]
      exact binv_reloadOnEnter env _ (binv_next_view s)
  | left =>
      dsimp only [handleKey, leftAction]
      exact binv_reloadOnEnter env _ (binv_prev_view s)
  | down => exact binv_of_eq (by simp [handleKey]) (by simp [handleKey]) h
  | up => exact binv_of_eq (by simp [handleKey]) (by simp [handleKey]) h
  | home =>
      dsimp only [handleKey]
      split
      · exact binv_of_eq rfl rfl h
      · exact h
  | endKey =>
      dsimp only [handleKey]
      split
      · exact binv_of_eq rfl rfl h
      · exact h
  | enter => exact binv_enterAction env h
  | backspace => exact binv_of_eq (by simp [handleKey]) (by simp [handleKey]) h
  | char c => exact binv_charAction env c h
  | other => exact h

theorem binv_init : BInv App.init := by
  unfold BInv
  rw [if_neg (by decide)]
  decide

theorem binv_initLoaded (env : Env) : BInv (initLoaded env) :=
  binv_of_eq (by simp [initLoaded]) (by simp [initLoaded]) binv_init

/-- Every reachable state satisfies the breadcrumb shape invariant. -/
theorem reachable_binv {s : App} (h : Reachable s) : BInv s := by
  induction h with
  | init env => exact binv_initLoaded env
  | step env k _ ih => exact binv_handleKey env k ih


/-! ### Further navigation helper lemmas -/

theorem all_getD_ne_detail (i : Nat) :
    View.all.getD i View.Participants ≠ View.ParticipantDetail := by
  rcases i with _ | _ | _ | _ | n <;> simp [View.all, List.getD]

theorem nextView_ne_detail (v : View) : nextView v ≠ View.ParticipantDetail :=
  all_getD_ne_detail _

theorem prevView_ne_detail (v : View) : prevView v ≠ View.ParticipantDetail :=
  all_getD_ne_detail _

@[simp] theorem next_view_app_current_view (s : App) :
    (App.next_view s).current_view = nextView s.current_view := rfl

@[simp] theorem prev_view_app_current_view (s : App) :
    (App.prev_view s).current_view = prevView s.current_view := rfl

@[simp] theorem reloadOnEnter_current_view (env : Env) (w : Bool) (s : App) :
    (reloadOnEnter env w s).current_view = s.current_view := by
  unfold reloadOnEnter
  split
  · simp
  · split
    · simp
    · rfl

@[simp] theorem refreshAction_current_view (env : Env) (s : App) :
    (refreshAction env s).current_view = s.current_view := by
  dsimp only [refreshAction]
  split
  · split
    · simp
    · simp
  · simp

theorem goto_view_detail_back (i : Nat) (s : App)
    (h : (App.goto_view i s).current_view = View.ParticipantDetail) :
    s.current_view = View.ParticipantDetail := by
  unfold App.goto_view at h
  split at h
  · exact absurd h (all_getD_ne_detail i)
  · exact h

/-! ### Demonstration environment and states used by concrete theorems -/

/-- A collaborator with one participant whose detail load fails. -/
def demoEnv : Env :=
  { participants := some [{ id := "p1", name := "P One", role := "Company" }]
    accountsOf := fun _ => some []
    transactions := some []
    contracts := some []
    now := 0
    detailOf := fun _ => none
    transferResult := TransferOutcome.err "down" }

/-- The state after drilling into the participant while the detail load fails:
`current_view = ParticipantDetail` with no detail loaded. -/
def detailNoneState : App := handleKey demoEnv Key.enter (initLoaded demoEnv)

def demoDetail : ParticipantDetailData :=
  { info := { id := "p1", name := "P One", role := "Company" }
    accounts := [], total_balance := 0, contracts := [] }

/-- A collaborator whose detail load succeeds. -/
def demoEnv2 : Env :=
  { demoEnv with detailOf := fun pid => if pid = "p1" then some demoDetail else none }

/-- The detail view state with a loaded detail. -/
def detailState : App := handleKey demoEnv2 Key.enter (initLoaded demoEnv2)

/-- An unreachable but well-formed state showing the detail view. -/
def pdState : App := { App.init with current_view := View.ParticipantDetail }

/-! ### C9 -/

/-- C9: `format_balance` renders a signed two-decimal string: the whole part is
`|cents| / 100`, the fractional part is `|cents| % 100` zero-padded to two
digits, and a leading minus sign appears exactly when the value is negative;
in particular `format_balance (-150023) = "-1500.23"`, and values between
`-99` and `-1` render as `"-0.NN"`. -/
theorem format_balance_signed_two_decimals :
    (∀ b : Int, format_balance b = formatBalanceSpec b) ∧
    format_balance (-150023) = "-1500.23" ∧
    (∀ b : Int, -99 ≤ b → b ≤ -1 → format_balance b = "-0." ++ pad2 b.natAbs) :=
  ⟨format_balance_eq_spec, by decide, small_negative_render⟩

/-- Witness for C9 at concrete inputs. -/
theorem format_balance_signed_two_decimals_witness :
    format_balance 150023 = formatBalanceSpec 150023 ∧
    format_balance (-50) = "-0." ++ pad2 ((-50 : Int)).natAbs :=
  ⟨format_balance_signed_two_decimals.1 150023,
    format_balance_signed_two_decimals.2.2 (-50) (by decide) (by decide)⟩

/-! ### C10 -/

/-- C10: from `ParticipantDetail` — a view absent from the flat ordering and
therefore looked up as flat index 0 — `next_view` moves to `Transfer` and
`prev_view` moves to `Future`; neither is a no-op. -/
theorem detail_flat_navigation :
    (∀ s : App, s.current_view = View.ParticipantDetail →
        (App.next_view s).current_view = View.Transfer ∧
        (App.prev_view s).current_view = View.Future) ∧
    viewIndex View.ParticipantDetail = 0 ∧
    nextView View.ParticipantDetail = View.Transfer ∧
    prevView View.ParticipantDetail = View.Future ∧
    nextView View.ParticipantDetail ≠ View.ParticipantDetail ∧
    prevView View.ParticipantDetail ≠ View.ParticipantDetail := by
  refine ⟨fun s h => ⟨?_, ?_⟩, by decide, by decide, by decide, by decide, by decide⟩
  · show nextView s.current_view = View.Transfer
    rw [h]
    decide
  · show prevView s.current_view = View.Future
    rw [h]
    decide

/-- Witness for C10 at a concrete detail-view state. -/
theorem detail_flat_navigation_witness :
    (App.next_view pdState).current_view = View.Transfer ∧
    (App.prev_view pdState).current_view = View.Future :=
  detail_flat_navigation.1 pdState rfl

/-! ### C3 -/

/-- C3 counterexample: from `Transfer`, three consecutive `next_view` calls
land on `Participants`, not back on `Transfer` — the flat ordering has four
views, so cycling has period four. -/
theorem three_next_from_transfer :
    nextView (nextView (nextView View.Transfer)) = View.Participants ∧
    ¬ nextView (nextView (nextView View.Transfer)) = View.Transfer ∧
    (App.next_view (App.next_view (App.next_view
        { App.init with current_view := View.Transfer }))).current_view = View.Participants := by
  refine ⟨by decide, by decide, by decide⟩

/-- C3 (amended): after at least one `next_view`/`prev_view` call the view
lies in the flat ordering `[Participants, Transfer, History, Future]`; from a
flat view `prev_view` undoes `next_view` and vice versa; `k` applications of
`next_view` advance the flat index by `k` modulo the ordering's length; hence
from `Transfer` four (not three) consecutive `next_view` calls return to
`Transfer`. -/
theorem flat_cycling_mod_length :
    (∀ (v : View) (ops : List NavOp), ops ≠ [] → applyNavs ops v ∈ View.all) ∧
    (∀ v ∈ View.all, prevView (nextView v) = v ∧ nextView (prevView v) = v) ∧
    (∀ v ∈ View.all, ∀ k : Nat,
        nextView^[k] v =
          View.all.getD ((viewIndex v + k) % View.all.length) View.Participants) ∧
    nextView^[4] View.Transfer = View.Transfer ∧
    nextView^[3] View.Transfer = View.Participants := by
  refine ⟨?_, ?_, ?_, by decide, by decide⟩
  · intro v ops hne
    cases ops with
    | nil => exact absurd rfl hne
    | cons o os => exact applyNavs_mem_of_mem os (applyNav o v) (applyNav_mem o v)
  · intro v hv
    fin_cases hv <;> exact ⟨by decide, by decide⟩
  · intro v hv k
    exact nextView_iterate k v hv

/-- Witness for C3 (amended) at concrete inputs. -/
theorem flat_cycling_mod_length_witness :
    applyNavs [NavOp.prev] View.History ∈ View.all ∧
    prevView (nextView View.Participants) = View.Participants ∧
    nextView^[7] View.Future =
      View.all.getD ((viewIndex View.Future + 7) % View.all.length) View.Participants :=
  ⟨flat_cycling_mod_length.1 View.History [NavOp.prev] (by decide),
    (flat_cycling_mod_length.2.1 View.Participants (by decide)).1,
    flat_cycling_mod_length.2.2.1 View.Future (by decide) 7⟩

/-! ### C4 -/

/-- Any key press that lands on `ParticipantDetail` either started there or
was the `Enter` drill-down from the `Participants` list. -/
theorem handleKey_detail_source (env : Env) (k : Key) {s : App}
    (hr : Reachable s)
    (h : (handleKey env k s).current_view = View.ParticipantDetail) :
    s.current_view = View.ParticipantDetail ∨
      (k = Key.enter ∧ s.current_view = View.Participants) := by
  by_cases hpd : s.current_view = View.ParticipantDetail
  · exact Or.inl hpd
  cases k with
  | ctrlC => exact absurd h hpd
  | esc =>
      dsimp only [handleKey] at h
      split at h <;> exact absurd h hpd
  | tab =>
      dsimp only [handleKey, tabAction] at h
      split at h
      · exact absurd h hpd
      · rw [reloadOnEnter_current_view, next_view_app_current_view] at h
        exact absurd h (nextView_ne_detail _)
  | backTab =>
      dsimp only [handleKey, backTabAction] at h
      split at h
      · exact absurd h hpd
      · rw [reloadOnEnter_current_view, prev_view_app_current_view] at h
        exact absurd h (prevView_ne_detail _)
  | right =>
      dsimp only [handleKey, rightAction] at h
      rw [reloadOnEnter_current_view, next_view_app_current_view] at h
      exact absurd h (nextView_ne_detail _)
  | left =>
      dsimp only [handleKey, leftAction] at h
      rw [reloadOnEnter_current_view, prev_view_app_current_view] at h
      exact absurd h (prevView_ne_detail _)
  | down =>
      rw [show (handleKey env Key.down s).current_view = s.current_view by simp [handleKey]] at h
      exact absurd h hpd
  | up =>
      rw [show (handleKey env Key.up s).current_view = s.current_view by simp [handleKey]] at h
      exact absurd h hpd
  | home =>
      dsimp only [handleKey] at h
      split at h <;> exact absurd h hpd
  | endKey =>
      dsimp only [handleKey] at h
      split at h <;> exact absurd h hpd
  | enter =>
      dsimp only [handleKey, enterAction] at h
      split at h
      · split at h
        · exact absurd h hpd
        · rw [execute_transfer_app_current_view] at h
          exact absurd h hpd
      · by_cases hview : s.current_view = View.Participants
        · exact Or.inr ⟨rfl, hview⟩
        · rw [if_neg hview] at h
          exact absurd h hpd
  | backspace =>
      rw [show (handleKey env Key.backspace s).current_view = s.current_view by
        simp [handleKey]] at h
      exact absurd h hpd
  | char c =>
      dsimp only [handleKey, charAction] at h
      split at h
      · exact absurd h hpd
      · split at h
        · exact absurd (goto_view_detail_back 0 s h) hpd
        · split at h
          · exact absurd (goto_view_detail_back 1 s h) hpd
          · split at h
            · rw [load_accounts_current_view] at h
              exact absurd (goto_view_detail_back 2 s h) hpd
            · split at h
              · rw [load_future_events_current_view] at h
                exact absurd (goto_view_detail_back 3 s h) hpd
              · split at h
                · rw [select_next_current_view] at h
                  exact absurd h hpd
                · split at h
                  · rw [select_prev_current_view] at h
                    exact absurd h hpd
                  · split at h
                    · rw [refreshAction_current_view] at h
                      exact absurd h hpd
                    · split at h
                      · rename_i hguard
                        have hb := reachable_binv hr
                        unfold BInv at hb
                        rw [if_neg hpd] at hb
                        have hlen : s.breadcrumb.length = 1 := by
                          have := congrArg List.length hb
                          simpa using this
                        exact absurd hguard.2 (by omega)
                      · rw [handle_char_current_view] at h
                        exact absurd h hpd
  | other => exact absurd h hpd

/-- C4: `next_view`, `prev_view` and in-range `goto_view` never set the
current view to `ParticipantDetail`; `goto_view` with an index outside the
flat ordering is a no-op; and along the event loop, `ParticipantDetail` is
entered only by the `Enter` drill-down from the `Participants` view. -/
theorem flat_nav_never_lands_on_detail :
    (∀ s : App, (App.next_view s).current_view ≠ View.ParticipantDetail) ∧
    (∀ s : App, (App.prev_view s).current_view ≠ View.ParticipantDetail) ∧
    (∀ (s : App) (i : Nat), i < View.all.length →
        (App.goto_view i s).current_view ≠ View.ParticipantDetail) ∧
    (∀ (s : App) (i : Nat), View.all.length ≤ i → App.goto_view i s = s) ∧
    (∀ (env : Env) (k : Key) (s : App), Reachable s →
        (handleKey env k s).current_view = View.ParticipantDetail →
        s.current_view = View.ParticipantDetail ∨
          (k = Key.enter ∧ s.current_view = View.Participants)) := by
  refine ⟨?_, ?_, ?_, ?_, fun env k s hr h => handleKey_detail_source env k hr h⟩
  · intro s
    rw [next_view_app_current_view]
    exact nextView_ne_detail _
  · intro s
    rw [prev_view_app_current_view]
    exact prevView_ne_detail _
  · intro s i hi
    unfold App.goto_view
    rw [if_pos hi]
    exact all_getD_ne_detail i
  · intro s i hi
    unfold App.goto_view
    rw [if_neg (Nat.not_lt.mpr hi)]

/-- Witness for C4 at concrete inputs. -/
theorem flat_nav_never_lands_on_detail_witness :
    (App.next_view pdState).current_view ≠ View.ParticipantDetail ∧
    (App.goto_view 2 App.init).current_view ≠ View.ParticipantDetail ∧
    App.goto_view 9 App.init = App.init ∧
    ((initLoaded demoEnv).current_view = View.ParticipantDetail ∨
      (Key.enter = Key.enter ∧ (initLoaded demoEnv).current_view = View.Participants)) :=
  ⟨flat_nav_never_lands_on_detail.1 pdState,
    flat_nav_never_lands_on_detail.2.2.1 App.init 2 (by decide),
    flat_nav_never_lands_on_detail.2.2.2.1 App.init 9 (by decide),
    flat_nav_never_lands_on_detail.2.2.2.2 demoEnv Key.enter (initLoaded demoEnv)
      (Reachable.init demoEnv) (by decide)⟩

/-! ### C6 -/

/-- C6 counterexample: a reachable state — drill-down from `Participants`
whose detail load failed — shows `ParticipantDetail` while the breadcrumb is
the single `Participants` segment, so the last segment's view differs from the
current view, refuting the claimed invariant for exactly the state the claim
includes. -/
theorem breadcrumb_last_mismatch :
    Reachable detailNoneState ∧
    detailNoneState.current_view = View.ParticipantDetail ∧
    detailNoneState.participant_detail = none ∧
    (detailNoneState.breadcrumb.getLast?).map (fun seg => seg.view) =
      some View.Participants ∧
    ¬ (detailNoneState.breadcrumb.getLast?).map (fun seg => seg.view) =
        some detailNoneState.current_view :=
  ⟨Reachable.step demoEnv Key.enter (Reachable.init demoEnv),
    by decide, by decide, by decide, by decide⟩

/-- C6 (amended): in every reachable state the breadcrumb has length at least
one, and the view of its last segment equals the current view, except that a
`ParticipantDetail` state whose breadcrumb was rebuilt with no loaded detail
carries the single `Participants` segment. -/
theorem breadcrumb_last_segment :
    ∀ s : App, Reachable s →
      1 ≤ s.breadcrumb.length ∧
      ((s.breadcrumb.getLast?).map (fun seg => seg.view) = some s.current_view ∨
        (s.current_view = View.ParticipantDetail ∧
          s.breadcrumb.map (fun seg => seg.view) = [View.Participants])) := by
  intro s hr
  have h := reachable_binv hr
  unfold BInv at h
  by_cases hpd : s.current_view = View.ParticipantDetail
  · rw [if_pos hpd] at h
    cases h with
    | inl h1 =>
        have hl : s.breadcrumb.length = 1 := by simpa using congrArg List.length h1
        exact ⟨by omega, Or.inr ⟨hpd, h1⟩⟩
    | inr h2 =>
        have hl : s.breadcrumb.length = 2 := by simpa using congrArg List.length h2
        have hlast := congrArg List.getLast? h2
        rw [List.getLast?_map] at hlast
        refine ⟨by omega, Or.inl ?_⟩
        rw [hlast, hpd]
        rfl
  · rw [if_neg hpd] at h
    have hl : s.breadcrumb.length = 1 := by simpa using congrArg List.length h
    have hlast := congrArg List.getLast? h
    rw [List.getLast?_map] at hlast
    refine ⟨by omega, Or.inl ?_⟩
    rw [hlast]
    rfl

/-- Witness for C6 (amended) at a concrete reachable state. -/
theorem breadcrumb_last_segment_witness :
    1 ≤ (initLoaded demoEnv).breadcrumb.length ∧
    (((initLoaded demoEnv).breadcrumb.getLast?).map (fun seg => seg.view) =
        some (initLoaded demoEnv).current_view ∨
      ((initLoaded demoEnv).current_view = View.ParticipantDetail ∧
        (initLoaded demoEnv).breadcrumb.map (fun seg => seg.view) =
          [View.Participants])) :=
  breadcrumb_last_segment (initLoaded demoEnv) (Reachable.init demoEnv)

/-! ### C5 -/

/-- Rust `navigate_to_breadcrumb (len - 2)` on a two-segment breadcrumb moves to
the first segment's view. -/
theorem navigate_to_breadcrumb_view (s : App) {a b' : BreadcrumbSegment}
    (hb : s.breadcrumb = [a, b']) :
    (App.navigate_to_breadcrumb (s.breadcrumb.length - 2) s).current_view = a.view := by
  unfold App.navigate_to_breadcrumb
  rw [hb]
  rw [dif_pos (show [a, b'].length - 2 < [a, b'].length by simp)]
  rfl

/-- From a detail-view state whose breadcrumb is `[Participants, Detail]`,
the back action returns to `Participants`. -/
theorem backAction_from_detail (env : Env) (s : App)
    (hmap : s.breadcrumb.map (fun seg => seg.view) =
      [View.Participants, View.ParticipantDetail]) :
    (backAction env s).current_view = View.Participants := by
  rcases hb : s.breadcrumb with _ | ⟨a, _ | ⟨b', rest⟩⟩ <;> rw [hb] at hmap <;>
    simp at hmap
  obtain ⟨ha, hbv, hrest⟩ := hmap
  subst hrest
  have hcv : (App.navigate_to_breadcrumb (s.breadcrumb.length - 2) s).current_view =
      View.Participants := by
    rw [navigate_to_breadcrumb_view s hb, ha]
  dsimp only [backAction]
  rw [if_neg (by rw [hcv]; decide), if_pos hcv, load_participants_current_view, hcv]

/-- With breadcrumb depth above one, the `b` key dispatches to the back
action (no earlier guarded character arm matches). -/
theorem charAction_b_eq (env : Env) (s : App) (hlen : 1 < s.breadcrumb.length) :
    charAction env 'b' s = backAction env s := by
  unfold charAction
  rw [if_neg (by decide), if_neg (by simp), if_neg (by simp), if_neg (by simp),
    if_neg (by simp), if_neg (by decide), if_neg (by decide), if_neg (by simp),
    if_pos ⟨rfl, hlen⟩]

/-- C5 counterexample: in a reachable state showing `ParticipantDetail`, the
`Tab` key performs flat navigation and moves the view to `Transfer` — the
view is left by an operation other than `navigate_to_breadcrumb`, and lands
on a view other than `Participants`. -/
theorem detail_left_by_flat_navigation :
    Reachable detailNoneState ∧
    detailNoneState.current_view = View.ParticipantDetail ∧
    (handleKey demoEnv Key.tab detailNoneState).current_view = View.Transfer ∧
    ¬ (handleKey demoEnv Key.tab detailNoneState).current_view =
        View.ParticipantDetail ∧
    ¬ (handleKey demoEnv Key.tab detailNoneState).current_view =
        View.Participants :=
  ⟨Reachable.step demoEnv Key.enter (Reachable.init demoEnv),
    by decide, by decide, by decide, by decide⟩

/-- C5 (amended): in a reachable `ParticipantDetail` state, flat navigation is
permitted and leaves the detail view — `Tab`/`Right` land on `Transfer`,
`BackTab`/`Left` on `Future`, the number keys jump to the corresponding flat
views — and breadcrumb back-navigation (`b`, enabled when the breadcrumb is
deeper than one segment) returns to `Participants`. -/
theorem detail_view_exits :
    ∀ (env : Env) (s : App), Reachable s → s.current_view = View.ParticipantDetail →
      (handleKey env Key.tab s).current_view = View.Transfer ∧
      (handleKey env Key.backTab s).current_view = View.Future ∧
      (handleKey env Key.right s).current_view = View.Transfer ∧
      (handleKey env Key.left s).current_view = View.Future ∧
      (handleKey env (Key.char '1') s).current_view = View.Participants ∧
      (handleKey env (Key.char '2') s).current_view = View.Transfer ∧
      (handleKey env (Key.char '3') s).current_view = View.History ∧
      (handleKey env (Key.char '4') s).current_view = View.Future ∧
      (1 < s.breadcrumb.length →
        (handleKey env (Key.char 'b') s).current_view = View.Participants) := by
  intro env s hr hpd
  have hnt : ¬ (s.current_view = View.Transfer) := by rw [hpd]; decide
  have hgrd : ¬ (s.current_view = View.Transfer ∧ s.transfer_form.selected_field ≤ 1) :=
    fun hc => hnt hc.1
  refine ⟨?_, ?_, ?_, ?_, ?_, ?_, ?_, ?_, ?_⟩
  · dsimp only [handleKey, tabAction]
    rw [if_neg hgrd, reloadOnEnter_current_view, next_view_app_current_view, hpd]
    decide
  · dsimp only [handleKey, backTabAction]
    rw [if_neg hgrd, reloadOnEnter_current_view, prev_view_app_current_view, hpd]
    decide
  · dsimp only [handleKey, rightAction]
    rw [reloadOnEnter_current_view, next_view_app_current_view, hpd]
    decide
  · dsimp only [handleKey, leftAction]
    rw [reloadOnEnter_current_view, prev_view_app_current_view, hpd]
    decide
  · dsimp only [handleKey, charAction]
    rw [if_neg (by decide), if_pos ⟨rfl, hnt⟩]
    unfold App.goto_view
    rw [if_pos (by decide)]
    rfl
  · dsimp only [handleKey, charAction]
    rw [if_neg (by decide), if_neg (by simp), if_pos ⟨rfl, hnt⟩]
    unfold App.goto_view
    rw [if_pos (by decide)]
    rfl
  · dsimp only [handleKey, charAction]
    rw [if_neg (by decide), if_neg (by simp), if_neg (by simp), if_pos ⟨rfl, hnt⟩,
      load_accounts_current_view]
    unfold App.goto_view
    rw [if_pos (by decide)]
    rfl
  · dsimp only [handleKey, charAction]
    rw [if_neg (by decide), if_neg (by simp), if_neg (by simp), if_neg (by simp),
      if_pos ⟨rfl, hnt⟩, load_future_events_current_view]
    unfold App.goto_view
    rw [if_pos (by decide)]
    rfl
  · intro hlen
    have hb := reachable_binv hr
    unfold BInv at hb
    rw [if_pos hpd] at hb
    cases hb with
    | inl h1 =>
        have : s.breadcrumb.length = 1 := by simpa using congrArg List.length h1
        omega
    | inr h2 =>
        dsimp only [handleKey]
        rw [charAction_b_eq env s hlen]
        exact backAction_from_detail env s h2

/-- Witness for C5 (amended) at a concrete reachable detail state. -/
theorem detail_view_exits_witness :
    (handleKey demoEnv2 Key.tab detailState).current_view = View.Transfer ∧
    (1 < detailState.breadcrumb.length →
      (handleKey demoEnv2 (Key.char 'b') detailState).current_view =
        View.Participants) :=
  ⟨(detail_view_exits demoEnv2 detailState
      (Reachable.step demoEnv2 Key.enter (Reachable.init demoEnv2)) (by decide)).1,
    (detail_view_exits demoEnv2 detailState
      (Reachable.step demoEnv2 Key.enter (Reachable.init demoEnv2)) (by decide)).2.2.2.2.2.2.2.2⟩

/-! ### C7 -/

/-- The spec's matching predicate: the filter is empty, or is a
case-insensitive substring of the account id, or of the account type label. -/
def specMatches (f : String) (acc : AccountInfo) : Prop :=
  f = "" ∨ (strLower f).data <:+: (strLower acc.id).data ∨
    (strLower f).data <:+: (strLower acc.account_type).data

instance (f : String) (acc : AccountInfo) : Decidable (specMatches f acc) := by
  unfold specMatches
  infer_instance

theorem accountMatches_iff_specMatches (f : String) (acc : AccountInfo) :
    accountMatches f acc = true ↔ specMatches f acc := by
  unfold accountMatches specMatches strContains
  simp [Bool.or_eq_true, decide_eq_true_eq, or_assoc]

theorem accountMatches_eq_decide (f : String) (acc : AccountInfo) :
    accountMatches f acc = decide (specMatches f acc) := by
  rw [← Bool.decide_coe (accountMatches f acc)]
  exact decide_eq_decide.mpr (accountMatches_iff_specMatches f acc)

theorem applySuggestion_suggestion_index (form : TransferForm) (accId : String) :
    (applySuggestion form accId).suggestion_index = form.suggestion_index := by
  unfold applySuggestion
  rcases form.selected_field with _ | _ | _ <;> rfl

/-- The spec's concrete suggestion example: three accounts, two matching. -/
def exAccounts : List AccountInfo :=
  [{ id := "a:op", participant_id := "", account_type := "", balance := 0 },
   { id := "b:op", participant_id := "", account_type := "", balance := 0 },
   { id := "a:recv", participant_id := "", account_type := "", balance := 0 }]

/-- A transfer form focused on the From field with filter text `"a"`. -/
def exForm : TransferForm :=
  { TransferForm.default with from_account := "a", selected_field := 0 }

theorem next_suggestion_from_none (accounts : List AccountInfo) (form : TransferForm)
    (hf : form.selected_field ≤ 1) (hidx : form.suggestion_index = none)
    (hne : ¬ get_account_suggestions accounts form = []) :
    (next_suggestion View.Transfer accounts form).suggestion_index = some 0 := by
  unfold next_suggestion
  rw [if_neg (by rintro (h | h); exacts [h rfl, by omega])]
  rw [if_neg (by simpa using hne)]
  rw [hidx]
  dsimp only
  split
  · rw [applySuggestion_suggestion_index]
  · rfl

theorem prev_suggestion_from_none (accounts : List AccountInfo) (form : TransferForm)
    (hf : form.selected_field ≤ 1) (hidx : form.suggestion_index = none)
    (hne : ¬ get_account_suggestions accounts form = []) :
    (prev_suggestion View.Transfer accounts form).suggestion_index =
      some ((get_account_suggestions accounts form).length - 1) := by
  unfold prev_suggestion
  rw [if_neg (by rintro (h | h); exacts [h rfl, by omega])]
  rw [if_neg (by simpa using hne)]
  rw [hidx]
  dsimp only
  rw [List.length_map]
  split
  · rw [applySuggestion_suggestion_index]
  · rfl

/-- C7: the suggestion list is exactly the account cache filtered — in its
original order — by "filter empty, or a case-insensitive substring of the
account id or of the account type label"; cycling forward from no selection
picks index 0 and cycling backward picks the last index; on the spec's
concrete example, filter `"a"` yields exactly `["a:op", "a:recv"]`. -/
theorem account_suggestions_correct :
    (∀ (accounts : List AccountInfo) (form : TransferForm) (filter : String),
        activeFilter form = some filter →
        get_account_suggestions accounts form =
          accounts.filter (fun acc => decide (specMatches filter acc))) ∧
    (∀ (accounts : List AccountInfo) (form : TransferForm),
        form.selected_field ≤ 1 → form.suggestion_index = none →
        ¬ get_account_suggestions accounts form = [] →
        (next_suggestion View.Transfer accounts form).suggestion_index = some 0 ∧
        (prev_suggestion View.Transfer accounts form).suggestion_index =
          some ((get_account_suggestions accounts form).length - 1)) ∧
    (get_account_suggestions exAccounts exForm).map (fun acc => acc.id) =
      ["a:op", "a:recv"] := by
  refine ⟨?_, ?_, by decide⟩
  · intro accounts form filter h
    unfold get_account_suggestions
    rw [h]
    dsimp only
    have he : accountMatches filter = fun acc => decide (specMatches filter acc) :=
      funext (accountMatches_eq_decide filter)
    rw [he]
  · intro accounts form hf hidx hne
    exact ⟨next_suggestion_from_none accounts form hf hidx hne,
      prev_suggestion_from_none accounts form hf hidx hne⟩

/-- Witness for C7 at the spec's concrete example. -/
theorem account_suggestions_correct_witness :
    get_account_suggestions exAccounts exForm =
      exAccounts.filter (fun acc => decide (specMatches "a" acc)) ∧
    (next_suggestion View.Transfer exAccounts exForm).suggestion_index = some 0 ∧
    (prev_suggestion View.Transfer exAccounts exForm).suggestion_index =
      some ((get_account_suggestions exAccounts exForm).length - 1) :=
  ⟨account_suggestions_correct.1 exAccounts exForm "a" (by decide),
    (account_suggestions_correct.2.1 exAccounts exForm (by decide) (by decide)
      (by decide)).1,
    (account_suggestions_correct.2.1 exAccounts exForm (by decide) (by decide)
      (by decide)).2⟩

/-! ### C2 -/

/-- A remote-failure message `Failed: …` never collides with a validation
message (those start with other letters). -/
theorem failed_msg_ne (e target : String) (h : ¬ target.data.head? = some 'F') :
    ¬ ("Failed: " ++ e = target) := by
  intro hc
  apply h
  rw [← hc, String.data_append]
  rfl

/-- C2: `execute_transfer` reports `Invalid amount` exactly when the amount
text does not parse as an integer and `Both accounts required` exactly when it
parses but an account field is empty; on either validation failure no external
call is made, the success message is cleared, and the form fields and history
are left untouched. -/
theorem execute_transfer_validation :
    ∀ (form : TransferForm) (history : List String) (remote : TransferOutcome),
      ((execute_transfer form history remote).form.error = some "Invalid amount" ↔
        parseI64 form.amount = none) ∧
      ((execute_transfer form history remote).form.error = some "Both accounts required" ↔
        (∃ a, parseI64 form.amount = some a) ∧
          (form.from_account = "" ∨ form.to_account = "")) ∧
      (parseI64 form.amount = none →
        execute_transfer form history remote =
          { form := { form with error := some "Invalid amount", success := none }
            history := history, sent := none }) ∧
      ((∃ a, parseI64 form.amount = some a) →
        (form.from_account = "" ∨ form.to_account = "") →
        execute_transfer form history remote =
          { form := { form with error := some "Both accounts required", success := none }
            history := history, sent := none }) := by
  intro form history remote
  dsimp only [execute_transfer]
  rcases hp : parseI64 form.amount with _ | a <;> dsimp only
  · refine ⟨by simp, ?_, fun _ => rfl, ?_⟩
    · constructor
      · intro hc
        exact absurd (Option.some.inj hc) (by decide)
      · rintro ⟨⟨a, ha⟩, -⟩
        exact absurd ha (by simp)
    · rintro ⟨a, ha⟩ -
      exact absurd ha (by simp)
  · by_cases he : form.from_account = "" ∨ form.to_account = ""
    · rw [if_pos he]
      refine ⟨?_, ?_, ?_, fun _ _ => rfl⟩
      · constructor
        · intro hc
          exact absurd (Option.some.inj hc) (by decide)
        · intro hc
          exact absurd hc (by simp)
      · exact ⟨fun _ => ⟨⟨a, rfl⟩, he⟩, fun _ => rfl⟩
      · intro hc
        exact absurd hc (by simp)
    · rw [if_neg he]
      cases remote with
      | ok t =>
          refine ⟨by simp [TransferForm.default], ?_, ?_, ?_⟩
          · constructor
            · intro hc
              simp [TransferForm.default] at hc
            · rintro ⟨-, hacc⟩
              exact absurd hacc he
          · intro hc
            exact absurd hc (by simp)
          · rintro - hacc
            exact absurd hacc he
      | err e =>
          refine ⟨?_, ?_, ?_, ?_⟩
          · constructor
            · intro hc
              exact absurd (Option.some.inj hc) (failed_msg_ne e _ (by decide))
            · intro hc
              exact absurd hc (by simp)
          · constructor
            · intro hc
              exact absurd (Option.some.inj hc) (failed_msg_ne e _ (by decide))
            · rintro ⟨-, hacc⟩
              exact absurd hacc he
          · intro hc
            exact absurd hc (by simp)
          · rintro - hacc
            exact absurd hacc he

/-- Witness for C2: amount `"abc"` is rejected with `Invalid amount`, leaving
the account fields, reference and history unchanged and making no call. -/
theorem execute_transfer_validation_witness :
    execute_transfer
        { TransferForm.default with from_account := "a:op", to_account := "b:op"
                                    amount := "abc", reference := "r" }
        ["old"] (TransferOutcome.ok "T9") =
      { form := { TransferForm.default with from_account := "a:op", to_account := "b:op"
                                            amount := "abc", reference := "r"
                                            error := some "Invalid amount", success := none }
        history := ["old"], sent := none } :=
  (execute_transfer_validation
      { TransferForm.default with from_account := "a:op", to_account := "b:op"
                                  amount := "abc", reference := "r" }
      ["old"] (TransferOutcome.ok "T9")).2.2.1 (by decide)

/-! ### C1 -/

/-- Substring containment from an explicit decomposition of the haystack. -/
theorem strContains_of_data (hay needle : String) (pre suf : List Char)
    (h : hay.data = pre ++ needle.data ++ suf) : strContains hay needle = true := by
  unfold strContains
  rw [decide_eq_true_eq, h]
  exact ⟨pre, suf, rfl⟩

/-- The success history line contains the formatted amount, both accounts,
the reference and the transaction id. -/
theorem transferMsg_contains (a : Int) (f t r txid : String) :
    strContains (transferMsg a f t r txid) (format_balance a) = true ∧
    strContains (transferMsg a f t r txid) f = true ∧
    strContains (transferMsg a f t r txid) t = true ∧
    strContains (transferMsg a f t r txid) r = true ∧
    strContains (transferMsg a f t r txid) txid = true := by
  refine ⟨strContains_of_data _ _ "Transfer ".data
      (" from ".data ++ f.data ++ " to ".data ++ t.data ++ " (ref: ".data ++ r.data ++
        ", tx: ".data ++ txid.data ++ ")".data) ?_,
    strContains_of_data _ _ ("Transfer ".data ++ (format_balance a).data ++ " from ".data)
      (" to ".data ++ t.data ++ " (ref: ".data ++ r.data ++ ", tx: ".data ++ txid.data ++
        ")".data) ?_,
    strContains_of_data _ _
      ("Transfer ".data ++ (format_balance a).data ++ " from ".data ++ f.data ++ " to ".data)
      (" (ref: ".data ++ r.data ++ ", tx: ".data ++ txid.data ++ ")".data) ?_,
    strContains_of_data _ _
      ("Transfer ".data ++ (format_balance a).data ++ " from ".data ++ f.data ++ " to ".data ++
        t.data ++ " (ref: ".data)
      (", tx: ".data ++ txid.data ++ ")".data) ?_,
    strContains_of_data _ _
      ("Transfer ".data ++ (format_balance a).data ++ " from ".data ++ f.data ++ " to ".data ++
        t.data ++ " (ref: ".data ++ r.data ++ ", tx: ".data)
      (")".data) ?_⟩ <;>
  simp [transferMsg, String.data_append]

/-- C1: when the amount parses and both accounts are present, a transfer the
collaborator accepts with id `t` sends exactly `[(from, -a), (to, +a)]` with
the form's reference, appends one history line containing the two-decimal
amount, both accounts, the reference and `t`, sets `success` to a message
containing `t`, and resets every other form field to its empty default. -/
theorem execute_transfer_success :
    ∀ (form : TransferForm) (history : List String) (a : Int) (t : String),
      parseI64 form.amount = some a →
      ¬ form.from_account = "" → ¬ form.to_account = "" →
      (execute_transfer form history (TransferOutcome.ok t)).sent =
          some ([(form.from_account, -a), (form.to_account, a)], form.reference) ∧
      (execute_transfer form history (TransferOutcome.ok t)).history =
          history ++
            [transferMsg a form.from_account form.to_account form.reference t] ∧
      strContains (transferMsg a form.from_account form.to_account form.reference t)
          (format_balance a) = true ∧
      strContains (transferMsg a form.from_account form.to_account form.reference t)
          form.from_account = true ∧
      strContains (transferMsg a form.from_account form.to_account form.reference t)
          form.to_account = true ∧
      strContains (transferMsg a form.from_account form.to_account form.reference t)
          form.reference = true ∧
      strContains (transferMsg a form.from_account form.to_account form.reference t)
          t = true ∧
      (execute_transfer form history (TransferOutcome.ok t)).form =
          { TransferForm.default with success := some ("Success! TX: " ++ t) } ∧
      strContains ("Success! TX: " ++ t) t = true := by
  intro form history a t hp hfrom hto
  have hmsg := transferMsg_contains a form.from_account form.to_account form.reference t
  have hne : ¬ (form.from_account = "" ∨ form.to_account = "") := by
    rintro (h | h)
    exacts [hfrom h, hto h]
  dsimp only [execute_transfer]
  rw [hp]
  dsimp only
  rw [if_neg hne]
  exact ⟨rfl, rfl, hmsg.1, hmsg.2.1, hmsg.2.2.1, hmsg.2.2.2.1, hmsg.2.2.2.2, rfl,
    strContains_of_data _ _ "Success! TX: ".data [] (by simp [String.data_append])⟩

/-- Witness for C1: the spec's concrete example transfer. -/
theorem execute_transfer_success_witness :
    (execute_transfer
        { TransferForm.default with from_account := "a:op", to_account := "b:op"
                                    amount := "500", reference := "x" }
        [] (TransferOutcome.ok "T1")).sent = some ([("a:op", -500), ("b:op", 500)], "x") ∧
    (execute_transfer
        { TransferForm.default with from_account := "a:op", to_account := "b:op"
                                    amount := "500", reference := "x" }
        [] (TransferOutcome.ok "T1")).history = [transferMsg 500 "a:op" "b:op" "x" "T1"] ∧
    strContains (transferMsg 500 "a:op" "b:op" "x" "T1") (format_balance 500) = true ∧
    strContains (transferMsg 500 "a:op" "b:op" "x" "T1") "a:op" = true := by
  have h := execute_transfer_success
    { TransferForm.default with from_account := "a:op", to_account := "b:op"
                                amount := "500", reference := "x" }
    [] 500 "T1" (by decide) (by decide) (by decide)
  exact ⟨h.1, h.2.1, h.2.2.1, h.2.2.2.1⟩

/-! ### C8 -/

/-- Every event produced by `contractEvent` lies strictly in the future. -/
theorem contractEvent_future {oc : Option Contract} {now : Int} {e : FutureEvent}
    (h : contractEvent oc now = some e) : now < e.execution_time := by
  unfold contractEvent at h
  split at h
  · split at h
    · rename_i inv hcond
      cases Option.some.inj h
      exact hcond.1
    · exact absurd h (by simp)
  · split at h
    · rename_i sub hcond
      cases Option.some.inj h
      exact hcond.1
    · exact absurd h (by simp)
  · split at h
    · rename_i gen hcond
      cases Option.some.inj h
      exact hcond.1
    · exact absurd h (by simp)
  · exact absurd h (by simp)

/-- C8: the future-events load keeps only events strictly in the future whose
contract passed the pending/active status check (each kept event comes from a
contract the eligibility filter accepted), sorts ascending by execution time,
and keeps at most five events even when more are eligible. -/
theorem load_future_events_correct :
    ∀ (contracts : List (Option Contract)) (now : Int),
      (loadFutureEventsPure contracts now).length ≤ 5 ∧
      List.Sorted execLe (loadFutureEventsPure contracts now) ∧
      (∀ e ∈ loadFutureEventsPure contracts now,
          now < e.execution_time ∧ ∃ oc ∈ contracts, contractEvent oc now = some e) := by
  intro contracts now
  refine ⟨?_, ?_, ?_⟩
  · unfold loadFutureEventsPure
    rw [List.length_take]
    omega
  · unfold loadFutureEventsPure
    exact List.Pairwise.sublist (List.take_sublist 5 _)
      (List.sorted_insertionSort execLe _)
  · intro e he
    unfold loadFutureEventsPure at he
    have h1 : e ∈ (contracts.filterMap (fun oc => contractEvent oc now)).insertionSort execLe :=
      List.mem_of_mem_take he
    have h2 : e ∈ contracts.filterMap (fun oc => contractEvent oc now) :=
      (List.perm_insertionSort execLe _).mem_iff.mp h1
    obtain ⟨oc, hoc, hev⟩ := List.mem_filterMap.mp h2
    exact ⟨contractEvent_future hev, oc, hoc, hev⟩

/-- A list of six eligible invoices, more than the cap of five. -/
def exContracts : List (Option Contract) :=
  (List.range 6).map (fun i =>
    some (Contract.invoice
      { id := "c" ++ toString i, amount_cents := 100, supplier_id := "s"
        buyer_id := "b", due_date := (i : Int) + 1, status := "pending" }))

/-- Witness for C8: six eligible invoices yield at most five events, sorted,
and the kept event with time 1 is strictly future and traceable to its
contract. -/
theorem load_future_events_correct_witness :
    (loadFutureEventsPure exContracts 0).length ≤ 5 ∧
    List.Sorted execLe (loadFutureEventsPure exContracts 0) ∧
    (0 < ({ contract_id := "c0", contract_type := "Invoice"
            description := "Invoice payment: 1.00 from s to b"
            execution_time := 1 } : FutureEvent).execution_time ∧
      ∃ oc ∈ exContracts, contractEvent oc 0 =
        some { contract_id := "c0", contract_type := "Invoice"
               description := "Invoice payment: 1.00 from s to b"
               execution_time := 1 }) := by
  have h := load_future_events_correct exContracts 0
  exact ⟨h.1, h.2.1, h.2.2 _ (by decide)⟩

end Scalegraph
